import Mathlib

/-!
Verification of the rtsp2browser proxy server (shallow embedding).

Source files embedded here:
  - proxy-server/src/rtsp.rs      (RtspRequest::parse, RtspResponse::parse)
  - proxy-server/src/proxy.rs     (RTSPProxy::handle_connection, forward_udp)
  - proxy-server/src/transport.rs (Transport::read_control, TransportSender::send_datagram)

Modelling conventions:
  - Byte strings are List Nat with values < 256 where they come from real data.
  - Rust u8 arithmetic is Nat with explicit % 256 (release/wrapping semantics).
  - The HashMap String String of the codec is an association list with distinct
    keys; insert replaces the entry with the same (exact, case-sensitive) key.
  - String.from_utf8_lossy is modelled byte-for-byte, including the U+FFFD
    (0xEF 0xBF 0xBD) replacement of each maximal invalid subpart.
  - char whitespace tests are modelled on their ASCII subset {9,10,11,12,13,32};
    RTSP heads are ASCII so the multi-byte Unicode whitespace cases never arise
    in any statement proved below.
-/

set_option maxRecDepth 100000

/-! ## Byte-level utilities (Rust str primitives used by rtsp.rs) -/

/-- ASCII whitespace, the ASCII subset of Rust char::is_whitespace. -/
def isWsB (b : Nat) : Bool := b == 32 || (9 ≤ b && b ≤ 13)

/-- Decimal digit byte. -/
def isDigitB (b : Nat) : Bool := 48 ≤ b && b ≤ 57

/-- UTF-8 continuation byte 0x80..0xBF. -/
def contB (b : Nat) : Bool := 0x80 ≤ b && b ≤ 0xBF

/-- Allowed second byte of a three-byte sequence led by b (E0/ED special cases). -/
def cont3ok (b c : Nat) : Bool :=
  if b = 0xE0 then 0xA0 ≤ c && c ≤ 0xBF
  else if b = 0xED then 0x80 ≤ c && c ≤ 0x9F
  else contB c

/-- Allowed second byte of a four-byte sequence led by b (F0/F4 special cases). -/
def cont4ok (b c : Nat) : Bool :=
  if b = 0xF0 then 0x90 ≤ c && c ≤ 0xBF
  else if b = 0xF4 then 0x80 ≤ c && c ≤ 0x8F
  else contB c

/-- UTF-8 encoding of U+FFFD, the replacement character. -/
def replChar : List Nat := [0xEF, 0xBF, 0xBD]

/-- Model of Rust String::from_utf8_lossy at byte level: valid sequences pass
through, each maximal invalid subpart becomes one replacement character. -/
def utf8Lossy : List Nat → List Nat
  | [] => []
  | b :: t =>
    if b < 0x80 then b :: utf8Lossy t
    else if 0xC2 ≤ b && b ≤ 0xDF then
      match t with
      | [] => replChar
      | c :: t2 =>
        if contB c then b :: c :: utf8Lossy t2
        else replChar ++ utf8Lossy (c :: t2)
    else if 0xE0 ≤ b && b ≤ 0xEF then
      match t with
      | [] => replChar
      | c :: t2 =>
        if cont3ok b c then
          match t2 with
          | [] => replChar
          | d :: t3 =>
            if contB d then b :: c :: d :: utf8Lossy t3
            else replChar ++ utf8Lossy (d :: t3)
        else replChar ++ utf8Lossy (c :: t2)
    else if 0xF0 ≤ b && b ≤ 0xF4 then
      match t with
      | [] => replChar
      | c :: t2 =>
        if cont4ok b c then
          match t2 with
          | [] => replChar
          | d :: t3 =>
            if contB d then
              match t3 with
              | [] => replChar
              | e :: t4 =>
                if contB e then b :: c :: d :: e :: utf8Lossy t4
                else replChar ++ utf8Lossy (e :: t4)
            else replChar ++ utf8Lossy (d :: t3)
        else replChar ++ utf8Lossy (c :: t2)
    else replChar ++ utf8Lossy t

/-- Valid UTF-8 byte string: a concatenation of complete well-formed sequences. -/
def validUtf8 : List Nat → Bool
  | [] => true
  | b :: t =>
    if b < 0x80 then validUtf8 t
    else if 0xC2 ≤ b && b ≤ 0xDF then
      match t with
      | [] => false
      | c :: t2 => contB c && validUtf8 t2
    else if 0xE0 ≤ b && b ≤ 0xEF then
      match t with
      | [] => false
      | c :: t2 =>
        cont3ok b c &&
          (match t2 with
           | [] => false
           | d :: t3 => contB d && validUtf8 t3)
    else if 0xF0 ≤ b && b ≤ 0xF4 then
      match t with
      | [] => false
      | c :: t2 =>
        cont4ok b c &&
          (match t2 with
           | [] => false
           | d :: t3 =>
             contB d &&
               (match t3 with
                | [] => false
                | e :: t4 => contB e && validUtf8 t4))
    else false

/-- Window test: the four bytes of l starting at i are CR LF CR LF. -/
def hasMatchAt (l : List Nat) (i : Nat) : Bool :=
  ((l.drop i).take 4) == [13, 10, 13, 10]

/-- Model of Rust str::find for the pattern CRLF CRLF: first byte index of a
match, scanning left to right. -/
def find4 (l : List Nat) : Option Nat :=
  (List.range l.length).find? (fun i => hasMatchAt l i)

/-- Rust str split on LF keeping empty segments (the splitting step of lines). -/
def splitOnLF : List Nat → List (List Nat)
  | [] => [[]]
  | b :: t =>
    let r := splitOnLF t
    if b == 10 then [] :: r
    else
      match r with
      | seg :: rest => (b :: seg) :: rest
      | [] => [[b]]

/-- Remove one trailing CR, as Rust str::lines does on segments ending in LF. -/
def stripCR (l : List Nat) : List Nat :=
  if l.getLast? == some 13 then l.dropLast else l

/-- Model of Rust str::lines: split on LF, drop a final empty segment if the
input ends with LF, strip the CR of each CRLF line ending.  A final segment not
terminated by LF keeps a trailing CR, as in Rust. -/
def linesOf (s : List Nat) : List (List Nat) :=
  if s.isEmpty then []
  else
    let segs := splitOnLF s
    let front := segs.dropLast.map stripCR
    if s.getLast? == some 10 then front
    else front ++ [segs.getLastD []]

/-- Single left-to-right pass of str::split_whitespace, accumulating the
current word in reverse. -/
def splitWsAux : List Nat → List Nat → List (List Nat)
  | [], acc => if acc.isEmpty then [] else [acc.reverse]
  | b :: t, acc =>
    if isWsB b then
      if acc.isEmpty then splitWsAux t [] else acc.reverse :: splitWsAux t []
    else splitWsAux t (b :: acc)

/-- Model of Rust str::split_whitespace (ASCII whitespace): maximal nonempty
runs of non-whitespace bytes. -/
def splitWs (l : List Nat) : List (List Nat) := splitWsAux l []

/-- Model of Rust str::split_once at the first colon. -/
def splitColon (l : List Nat) : Option (List Nat × List Nat) :=
  if l.any (fun b => b == 58) then
    some (l.takeWhile (fun b => !(b == 58)), (l.dropWhile (fun b => !(b == 58))).drop 1)
  else none

/-- Model of Rust str::trim on ASCII whitespace. -/
def trimB (l : List Nat) : List Nat :=
  ((l.dropWhile isWsB).reverse.dropWhile isWsB).reverse

/-- Model of Rust str::parse for an unsigned integer bounded by lim (usize or
u16): optional leading plus sign, one or more decimal digits, overflow fails. -/
def parseDecN (lim : Nat) (l : List Nat) : Option Nat :=
  let l := match l with
    | 43 :: t => t
    | _ => l
  if l.isEmpty || !(l.all isDigitB) then none
  else
    let v := l.foldl (fun a b => a * 10 + (b - 48)) 0
    if v < lim then some v else none

/-- usize bound (64-bit). -/
def usizeLim : Nat := 18446744073709551616

/-- u16 bound. -/
def u16Lim : Nat := 65536

/-- UTF-8 bytes of an ASCII Lean string literal (used for concrete byte keys). -/
def asciiBytes (s : String) : List Nat := s.data.map Char.toNat

/-! ## Association-list model of std HashMap String String

The codec builds its header map by repeated insert; a HashMap has distinct
keys, so an association list whose insert replaces the entry with the same key
is a faithful model.  Lookup and membership use exact key equality, as the
Rust HashMap does. -/

/-- HashMap::get. -/
def hmGet {α β : Type} [BEq α] (m : List (α × β)) (k : α) : Option β :=
  (m.find? (fun p => p.1 == k)).map (fun p => p.2)

/-- HashMap::contains_key. -/
def hmContains {α β : Type} [BEq α] (m : List (α × β)) (k : α) : Bool :=
  m.any (fun p => p.1 == k)

/-- HashMap::insert (replaces the entry with an equal key). -/
def hmInsert {α β : Type} [BEq α] (m : List (α × β)) (k : α) (v : β) : List (α × β) :=
  m.filter (fun p => !(p.1 == k)) ++ [(k, v)]

/-- HashMap::get_mut followed by an in-place update: rewrite the value at key k
when present, otherwise leave the map unchanged. -/
def hmModify {α β : Type} [BEq α] (m : List (α × β)) (k : α) (f : β → β) : List (α × β) :=
  m.map (fun p => if p.1 == k then (p.1, f p.2) else p)

/-! ## RTSP codec model (rtsp.rs) -/

/-- Parsed request head: method, path, version, headers (RtspRequest without
the body). -/
structure ReqHead where
  method : List Nat
  path : List Nat
  version : List Nat
  headers : List (List Nat × List Nat)
deriving Repr, DecidableEq

/-- RtspRequest. -/
structure RtspRequestB where
  method : List Nat
  path : List Nat
  version : List Nat
  headers : List (List Nat × List Nat)
  body : List Nat
deriving Repr, DecidableEq

/-- RtspResponse. -/
structure RtspResponseB where
  version : List Nat
  statusCode : Nat
  reason : List Nat
  headers : List (List Nat × List Nat)
  body : List Nat
deriving Repr, DecidableEq

/-- The header loop of both parsers: for each line, split at the first colon
and insert the trimmed name and value into the map (HashMap::insert). -/
def headersOf (ls : List (List Nat)) : List (List Nat × List Nat) :=
  ls.foldl
    (fun m line =>
      match splitColon line with
      | some kv => hmInsert m (trimB kv.1) (trimB kv.2)
      | none => m)
    []

/-- Bytes of the Content-Length header name. -/
def contentLengthKey : List Nat := asciiBytes "Content-Length"

/-- Content-Length extraction of both parsers: get, parse as usize, default 0. -/
def contentLenOf (hdrs : List (List Nat × List Nat)) : Nat :=
  ((hmGet hdrs contentLengthKey).bind (parseDecN usizeLim)).getD 0

/-- Head processing of RtspRequest::parse: first line split on whitespace into
at least three fields, remaining lines into the header map. -/
def parseReqHead (hs : List Nat) : Except String ReqHead :=
  match linesOf hs with
  | [] => .error "Empty request"
  | requestLine :: rest =>
    let parts := splitWs requestLine
    if parts.length < 3 then .error "Invalid request line"
    else .ok ⟨parts.getD 0 [], parts.getD 1 [], parts.getD 2 [], headersOf rest⟩

/-- RtspRequest::parse.  Returns ok none for incomplete input, error for a
malformed head, and the message with its consumed byte count otherwise.  The
lossy UTF-8 view is used to locate the head and read its lines, exactly as the
Rust code does; the body is sliced from the original bytes. -/
def reqParse (data : List Nat) : Except String (Option (RtspRequestB × Nat)) :=
  let text := utf8Lossy data
  match find4 text with
  | none => .ok none
  | some headerEnd =>
    let headerBytes := headerEnd + 4
    match parseReqHead (text.take headerEnd) with
    | .error e => .error e
    | .ok h =>
      let contentLength := contentLenOf h.headers
      if data.length < headerBytes + contentLength then .ok none
      else
        .ok (some
          (⟨h.method, h.path, h.version, h.headers, (data.drop headerBytes).take contentLength⟩,
           headerBytes + contentLength))

/-- Join with single spaces (Rust slice join of the reason fields). -/
def joinSpace (ls : List (List Nat)) : List Nat :=
  (ls.intersperse [32]).flatten

/-- Head processing of RtspResponse::parse: version, numeric status (u16),
reason joined with spaces, header map. -/
def parseRespHead (hs : List Nat) : Except String (List Nat × Nat × List Nat × List (List Nat × List Nat)) :=
  match linesOf hs with
  | [] => .error "Empty response"
  | statusLine :: rest =>
    let parts := splitWs statusLine
    if parts.length < 3 then .error "Invalid status line"
    else
      match parseDecN u16Lim (parts.getD 1 []) with
      | none => .error "Invalid status code"
      | some code =>
        .ok (parts.getD 0 [], code, joinSpace (parts.drop 2), headersOf rest)

/-- RtspResponse::parse. -/
def respParse (data : List Nat) : Except String (Option (RtspResponseB × Nat)) :=
  let text := utf8Lossy data
  match find4 text with
  | none => .ok none
  | some headerEnd =>
    let headerBytes := headerEnd + 4
    match parseRespHead (text.take headerEnd) with
    | .error e => .error e
    | .ok h =>
      let contentLength := contentLenOf h.2.2.2
      if data.length < headerBytes + contentLength then .ok none
      else
        .ok (some
          (⟨h.1, h.2.1, h.2.2.1, h.2.2.2, (data.drop headerBytes).take contentLength⟩,
           headerBytes + contentLength))

/-- Decidable equality for Except results (both payloads decidable). -/
instance {e a : Type} [DecidableEq e] [DecidableEq a] : DecidableEq (Except e a) := fun x y =>
  match x, y with
  | .ok u, .ok v =>
    if h : u = v then .isTrue (h ▸ rfl) else .isFalse (fun hc => h (by injection hc))
  | .error u, .error v =>
    if h : u = v then .isTrue (h ▸ rfl) else .isFalse (fun hc => h (by injection hc))
  | .ok _, .error _ => .isFalse (fun hc => Except.noConfusion hc)
  | .error _, .ok _ => .isFalse (fun hc => Except.noConfusion hc)

/-! ## Proxy session model (proxy.rs, RTSPProxy::handle_connection)

The control loop is modelled as a step function over an explicit event trace.
Each event is one ready arm of the select loop after the codec has produced a
complete message (one event per message drained from the buffer), a parse
error (the question-mark operator on RtspRequest::parse / RtspResponse::parse),
an orderly close (read returned 0) or a read error.  Requests and responses are
carried at the level the loop works on: a parsed structure with a header map
(String keys, matching the HashMap of the codec).  The freshly bound UDP ports
of a SETUP are inputs of its event (the OS assigns them). -/

/-- Parsed request as the loop sees it (fields the loop reads). -/
structure ReqS where
  method : String
  headers : List (String × String)
deriving Repr, DecidableEq

/-- Parsed response as the loop sees it (fields the loop reads). -/
structure RespS where
  status : Nat
  headers : List (String × String)
deriving Repr, DecidableEq

/-- Session state of handle_connection: the u8 channel-id allocator, the
pending-setup FIFO (channel-id pairs; the sockets are abstracted), the captured
session id, and logs of what was written to each side and which relay channel
ids were spawned. -/
structure St where
  nextChannelId : Nat
  pending : List (Nat × Nat)
  sessionId : Option String
  sentToOrigin : List ReqS
  sentToBrowser : List RespS
  spawned : List (Nat × Nat)
deriving Repr, DecidableEq

/-- Initial session state (lines 56-58 of proxy.rs). -/
def st0 : St := ⟨0, [], none, [], [], []⟩

/-- One ready event of the select loop. -/
inductive Ev
  /-- A complete request parsed from the browser buffer, with the two UDP
  ports the OS would assign if it is a SETUP, and the outcome of the TCP
  write to the origin. -/
  | reqMsg (r : ReqS) (rtpPort rtcpPort : Nat) (writeOk : Bool)
  /-- RtspRequest::parse returned Err (line 85, the question mark). -/
  | reqParseErr
  /-- read_control returned Ok(0) (line 79). -/
  | browserClose
  /-- read_control returned Err (line 73). -/
  | browserReadErr
  /-- A complete response parsed from the origin buffer, with the outcome of
  the transport control write to the browser. -/
  | respMsg (r : RespS) (writeOk : Bool)
  /-- RtspResponse::parse returned Err (line 141, the question mark). -/
  | respParseErr
  /-- tcp read returned Ok(0) (line 135). -/
  | originClose
  /-- tcp read returned Err (line 127). -/
  | originReadErr
deriving Repr, DecidableEq

/-- Result of one loop iteration: continue, break out of the loop (cleanup
follows), or return early with an error (the question-mark operator: cleanup is
skipped). -/
inductive StepRes
  | cont (st : St)
  | exitLoop (st : St)
  | exitErr (st : St)
deriving Repr, DecidableEq

/-- Session-id cleanup (line 147): Rust sid.split at the first semicolon,
first piece.  Done on the character list so that it evaluates by decide. -/
def stripAfterSemi (s : String) : String :=
  ⟨s.data.takeWhile (fun c => c != ';')⟩

/-- The Transport request-header value forced on SETUP (line 101). -/
def forcedTransport (rtpPort rtcpPort : Nat) : String :=
  "RTP/AVP;unicast;client_port=" ++ toString rtpPort ++ "-" ++ toString rtcpPort

/-- The suffix injected into the Transport response-header value (line 161). -/
def channelIdSuffix (rtpId rtcpId : Nat) : String :=
  ";x-wt-channel-id=" ++ toString rtpId ++ "-" ++ toString rtcpId

/-- One iteration of the control loop of handle_connection.

Request side (lines 85-122): on SETUP, the Transport header is rewritten only
when a key exactly equal to "Transport" is present (headers.get_mut), a
channel-id pair is allocated (u8 arithmetic, modelled mod 256) and pushed on
the FIFO; the request is then written to the origin.  A write failure only
breaks the inner while (the break on line 120 binds to the while let), so the
session continues.

Response side (lines 141-198): the first Session header value, cut at the
first semicolon, is captured; a 200 response with a Transport key pops the
FIFO front when nonempty, suffixes the Transport value with the pair and
spawns the two relays; the response is then written to the browser, a failure
again only breaking the inner while (line 196). -/
def step (st : St) : Ev → StepRes
  | .reqMsg r p1 p2 wOk =>
    let setup := r.method == "SETUP"
    let rtpId := st.nextChannelId % 256
    let rtcpId := (st.nextChannelId + 1) % 256
    let r1 :=
      if setup then
        { r with headers := hmModify r.headers "Transport" (fun _ => forcedTransport p1 p2) }
      else r
    let st1 :=
      if setup then
        { st with
            nextChannelId := (st.nextChannelId + 2) % 256,
            pending := st.pending ++ [(rtpId, rtcpId)] }
      else st
    if wOk then .cont { st1 with sentToOrigin := st1.sentToOrigin ++ [r1] }
    else .cont st1
  | .reqParseErr => .exitErr st
  | .browserClose => .exitLoop st
  | .browserReadErr => .exitLoop st
  | .respMsg r wOk =>
    let st1 :=
      match hmGet r.headers "Session" with
      | some sid =>
        if st.sessionId.isNone then
          { st with sessionId := some (stripAfterSemi sid) }
        else st
      | none => st
    let hit := r.status == 200 && hmContains r.headers "Transport"
    let (st2, r2) :=
      if hit then
        match st1.pending with
        | p :: rest =>
          ({ st1 with pending := rest, spawned := st1.spawned ++ [p] },
           { r with headers := hmModify r.headers "Transport" (fun t => t ++ channelIdSuffix p.1 p.2) })
        | [] => (st1, r)
      else (st1, r)
    if wOk then .cont { st2 with sentToBrowser := st2.sentToBrowser ++ [r2] }
    else .cont st2
  | .respParseErr => .exitErr st
  | .originClose => .exitLoop st
  | .originReadErr => .exitLoop st

/-- The TEARDOWN message synthesized on cleanup (lines 215-218). -/
def teardownMsg (url sid : String) : String :=
  "TEARDOWN " ++ url ++ " RTSP/1.0\r\nCSeq: 99\r\nSession: " ++ sid ++ "\r\n\r\n"

/-- What handle_connection did by the time it returned. -/
structure SessionResult where
  final : St
  /-- The function returned Err (question-mark on a parse error). -/
  errored : Bool
  /-- The cleanup block after the loop ran (cancel_token.cancel on line 210). -/
  cleanupRan : Bool
  /-- The TEARDOWN written best-effort to the TCP socket, if any. -/
  teardown : Option String
deriving Repr, DecidableEq

/-- The cleanup block (lines 208-224): cancel the token, then send TEARDOWN
iff a session id was captured. -/
def finishClean (url : String) (st : St) : SessionResult :=
  ⟨st, false, true, st.sessionId.map (teardownMsg url)⟩

/-- A session either is still in the loop (trace exhausted) or has returned. -/
inductive SessionOutcome
  | running (st : St)
  | done (r : SessionResult)
deriving Repr, DecidableEq

/-- Run the control loop over an event trace.  A break reaches the cleanup
block; a parse error returns through the question-mark operator, skipping it. -/
def runSession (url : String) (st : St) : List Ev → SessionOutcome
  | [] => .running st
  | e :: rest =>
    match step st e with
    | .cont st' => runSession url st' rest
    | .exitLoop st' => .done (finishClean url st')
    | .exitErr st' => .done ⟨st', true, false, none⟩

/-- State reached by an outcome. -/
def outState : SessionOutcome → St
  | .running st => st
  | .done r => r.final

/-- Trace of request events with successful writes. -/
def reqEvents (rs : List (ReqS × Nat × Nat)) : List Ev :=
  rs.map (fun x => .reqMsg x.1 x.2.1 x.2.2 true)

/-- Trace of response events with successful writes. -/
def respEvents (rs : List RespS) : List Ev :=
  rs.map (fun r => .respMsg r true)

/-- Number of SETUP requests in a request list. -/
def countSetups (rs : List (ReqS × Nat × Nat)) : Nat :=
  (rs.filter (fun x => x.1.method == "SETUP")).length

/-- Channel-id pairs allocated by k consecutive SETUPs starting at counter c
(u8 arithmetic). -/
def allocPairs (c k : Nat) : List (Nat × Nat) :=
  (List.range k).map (fun i => ((c + 2 * i) % 256, (c + 2 * i + 1) % 256))

/-! ## UDP relay model (proxy.rs, forward_udp) and transport (transport.rs) -/

/-- The datagram built by forward_udp for a receive of n bytes into the 2048
byte buffer: the channel id byte followed by the first n buffer bytes
(lines 244-246). -/
def relayDatagram (channelId : Nat) (buf : List Nat) (n : Nat) : List Nat :=
  channelId :: buf.take n

/-- Transport backend tag. -/
inductive Backend
  | wt
  | ws
deriving Repr, DecidableEq

/-- Outcome of the underlying send primitive (Connection::send_datagram or
WebSocketStream::send of a binary frame). -/
inductive IoOutcome
  | ok
  | err
deriving Repr, DecidableEq

/-- TransportSender::send_datagram (transport.rs lines 36-50): the WebTransport
arm propagates the error of the underlying send; the WebSocket arm logs the
error of ws.send and returns Ok(()) regardless. -/
def sendDatagram (b : Backend) (io : IoOutcome) : Except String Unit :=
  match b with
  | .wt =>
    match io with
    | .ok => .ok ()
    | .err => .error "send_datagram failed"
  | .ws => .ok ()

/-- One wake-up of the forward_udp select loop. -/
inductive RelayEv
  /-- The cancellation token fired. -/
  | cancelled
  /-- recv_from returned Err. -/
  | recvErr
  /-- recv_from returned n bytes; io is the outcome of the underlying send. -/
  | recv (n : Nat) (io : IoOutcome)
deriving Repr, DecidableEq

/-- Result of one forward_udp iteration. -/
inductive RelayRes
  /-- Return Ok (cancellation). -/
  | stopOk
  /-- Return Err. -/
  | stopErr
  /-- Keep looping. -/
  | cont
deriving Repr, DecidableEq

/-- One iteration of forward_udp (lines 235-258): stop with Ok on cancellation,
with Err on a receive error, with Err when send_datagram fails, and loop
otherwise. -/
def relayStep (b : Backend) : RelayEv → RelayRes
  | .cancelled => .stopOk
  | .recvErr => .stopErr
  | .recv _ io =>
    match sendDatagram b io with
    | .ok _ => .cont
    | .error _ => .stopErr

/-- A WebSocket frame on the control channel. -/
inductive WsFrame
  | text (s : String)
  | binary (payload : List Nat)
  | ping
  | pong
  | close
deriving Repr, DecidableEq

/-- Frame classifier used below. -/
def isTextFrame : WsFrame → Bool
  | .text _ => true
  | _ => false

/-- Transport::read_control, WebSocket arm, case Some(Ok(msg)) (transport.rs
lines 93-103): a text frame appends its UTF-8 bytes and returns their count; a
close frame returns 0; every other frame type falls to the wildcard arm and
returns 0. -/
def wsReadFrame : WsFrame → Except String Nat
  | .text s => .ok s.utf8ByteSize
  | .close => .ok 0
  | _ => .ok 0

/-- State carried by a step result. -/
def stepState : StepRes → St
  | .cont st => st
  | .exitLoop st => st
  | .exitErr st => st

/-- Did the step continue the loop. -/
def stepIsCont : StepRes → Bool
  | .cont _ => true
  | _ => false

/-- The session result, when the function has returned. -/
def outDone : SessionOutcome → Option SessionResult
  | .running _ => none
  | .done r => some r

/-- The mutation the loop applies to a matched SETUP response (line 161): the
Transport value of the popped pair is suffixed with the channel ids. -/
def injectResp (r : RespS) (p : Nat × Nat) : RespS :=
  { r with headers := hmModify r.headers "Transport" (fun t => t ++ channelIdSuffix p.1 p.2) }

/-- Trimmed name-value pairs of the header lines, in input order (the
characterization device for the header-map theorems). -/
def headerPairs (ls : List (List Nat)) : List (List Nat × List Nat) :=
  ls.filterMap (fun line => (splitColon line).map (fun kv => (trimB kv.1, trimB kv.2)))

/-! ## Helper lemmas on the association-list map -/

theorem hmGet_modify {α β : Type} [BEq α] (m : List (α × β)) (k : α) (f : β → β) :
    hmGet (hmModify m k f) k = (hmGet m k).map f := by
  induction m with
  | nil => rfl
  | cons p t ih =>
    by_cases h : (p.1 == k) = true
    · simp [hmModify, hmGet, List.find?_cons, h] at ih ⊢
    · simp [hmModify, hmGet, List.find?_cons, h] at ih ⊢
      exact ih

theorem hmContains_eq_isSome {α β : Type} [BEq α] (m : List (α × β)) (k : α) :
    hmContains m k = (hmGet m k).isSome := by
  induction m with
  | nil => rfl
  | cons p t ih =>
    by_cases h : (p.1 == k) = true
    · simp [hmContains, hmGet, List.find?_cons, h]
    · simp [hmContains, hmGet, List.find?_cons, h] at ih ⊢
      exact ih

/-! ## C2: Transport header rewrite on SETUP -/

/-- C2 counterexample.  The claim says the Transport header sent to the origin
is forced to the literal value even when the browser sent the header with a
different name casing or not at all.  In the code the rewrite goes through
headers.get_mut with the exact key "Transport" (proxy.rs line 100): a SETUP
carrying only a lowercase "transport" header is forwarded with its original
value untouched, and a SETUP with no Transport header is forwarded without one
being added. -/
theorem c2_transport_rewrite_counterexample :
    (step st0 (.reqMsg ⟨"SETUP", [("transport", "RTP/AVP;unicast;client_port=9000-9001")]⟩ 5000 5001 true) =
      .cont ⟨2, [(0, 1)], none,
        [⟨"SETUP", [("transport", "RTP/AVP;unicast;client_port=9000-9001")]⟩], [], []⟩) ∧
    (step st0 (.reqMsg ⟨"SETUP", []⟩ 5000 5001 true) =
      .cont ⟨2, [(0, 1)], none, [⟨"SETUP", []⟩], [], []⟩) ∧
    forcedTransport 5000 5001 = "RTP/AVP;unicast;client_port=5000-5001" := by
  decide

/-- C2 (amended): when the browser's SETUP carries a header named exactly
"Transport", the request forwarded to the origin has that header's value
replaced by the literal RTP/AVP;unicast;client_port=rtp-rtcp built from the
two freshly bound UDP ports; without such a key the request is forwarded
unchanged. -/
theorem c2_transport_rewrite (st : St) (r : ReqS) (p1 p2 : Nat)
    (hm : r.method = "SETUP") (ht : hmContains r.headers "Transport" = true) :
    stepIsCont (step st (.reqMsg r p1 p2 true)) = true ∧
    ((stepState (step st (.reqMsg r p1 p2 true))).sentToOrigin.getLast?).bind
        (fun q => hmGet q.headers "Transport") = some (forcedTransport p1 p2) := by
  have hsome : (hmGet r.headers "Transport").isSome = true := by
    rw [← hmContains_eq_isSome]; exact ht
  obtain ⟨v, hv⟩ := Option.isSome_iff_exists.mp hsome
  constructor
  · simp [step, hm, stepIsCont]
  · simp [step, hm, stepState, List.getLast?_concat, hmGet_modify, hv]

/-- C2 witness. -/
theorem c2_transport_rewrite_witness :
    stepIsCont (step st0 (.reqMsg ⟨"SETUP", [("Transport", "RTP/AVP;unicast;client_port=9000-9001")]⟩ 9000 9001 true)) = true ∧
    ((stepState (step st0 (.reqMsg ⟨"SETUP", [("Transport", "RTP/AVP;unicast;client_port=9000-9001")]⟩ 9000 9001 true))).sentToOrigin.getLast?).bind
        (fun q => hmGet q.headers "Transport") = some (forcedTransport 9000 9001) :=
  c2_transport_rewrite st0 ⟨"SETUP", [("Transport", "RTP/AVP;unicast;client_port=9000-9001")]⟩
    9000 9001 (by decide) (by decide)

/-! ## C3: datagram framing in forward_udp -/

/-- C3 (confirmed): a UDP receive of n bytes (n at most the 2048 byte buffer)
on a relay with channel id c produces exactly one datagram of length n+1 whose
first byte is c and whose remaining bytes are the received payload verbatim
(proxy.rs lines 241-251). -/
theorem c3_datagram_framing (c n : Nat) (payload rest : List Nat)
    (hn : n = payload.length) (hle : n ≤ 2048)
    (_hbuf : payload.length + rest.length = 2048) :
    (relayDatagram c (payload ++ rest) n).length = n + 1 ∧
    (relayDatagram c (payload ++ rest) n).head? = some c ∧
    (relayDatagram c (payload ++ rest) n).drop 1 = payload := by
  subst hn
  refine ⟨?_, rfl, ?_⟩
  · simp [relayDatagram, List.take_left]
  · simp [relayDatagram, List.take_left]

/-- C3 witness: scenario 4 of the spec, a 4 byte payload on channel 0. -/
theorem c3_datagram_framing_witness :
    (relayDatagram 0 ([0xAA, 0xBB, 0xCC, 0xDD] ++ List.replicate 2044 0) 4).length = 4 + 1 ∧
    (relayDatagram 0 ([0xAA, 0xBB, 0xCC, 0xDD] ++ List.replicate 2044 0) 4).head? = some 0 ∧
    (relayDatagram 0 ([0xAA, 0xBB, 0xCC, 0xDD] ++ List.replicate 2044 0) 4).drop 1 =
      [0xAA, 0xBB, 0xCC, 0xDD] :=
  c3_datagram_framing 0 4 [0xAA, 0xBB, 0xCC, 0xDD] (List.replicate 2044 0)
    (by decide) (by decide) (by simp)

/-! ## C4: cleanup on loop exit -/

/-- C4 (code bug): the claim (and the spec) say the cancellation token is
cancelled and a TEARDOWN is best-effort-sent on every control-loop exit,
including a codec error.  In the code the parse calls on lines 85 and 141
carry the question-mark operator, which returns from handle_connection
immediately on a parse error, skipping the cleanup block of lines 208-224:
the token is never cancelled and no TEARDOWN is sent.  Evaluation at such a
trace: the origin returns a 200 capturing session id 12345678, then the
browser sends malformed bytes; the session ends errored, with no cleanup and
no TEARDOWN, although a session id was captured. -/
theorem c4_parse_error_skips_cleanup :
    (outDone (runSession "rtsp://o/s" st0
        [.respMsg ⟨200, [("Session", "12345678;timeout=60")]⟩ true, .reqParseErr])).map
      (fun r => (r.errored, r.cleanupRan, r.teardown)) = some (true, false, none) ∧
    (outState (runSession "rtsp://o/s" st0
        [.respMsg ⟨200, [("Session", "12345678;timeout=60")]⟩ true, .reqParseErr])).sessionId =
      some "12345678" ∧
    teardownMsg "rtsp://o/s" "12345678" =
      "TEARDOWN rtsp://o/s RTSP/1.0\r\nCSeq: 99\r\nSession: 12345678\r\n\r\n" := by
  decide

/-! ## C5: write failures are not fatal -/

/-- C5 (code bug): the claim (and the spec) say a failed TCP write to the
origin or a failed transport write to the browser terminates the session.  The
break statements on lines 120 and 196 of proxy.rs sit inside the inner
while-let drain loops, so they only leave the drain, not the select loop: the
session keeps running and keeps relaying.  Evaluation: after a request whose
TCP write fails, a later request is still forwarded; after a response whose
transport write fails, a later response is still forwarded. -/
theorem c5_write_error_not_fatal :
    (runSession "u" st0 [.reqMsg ⟨"OPTIONS", []⟩ 0 0 false, .reqMsg ⟨"PLAY", []⟩ 0 0 true] =
      .running ⟨0, [], none, [⟨"PLAY", []⟩], [], []⟩) ∧
    (runSession "u" st0 [.respMsg ⟨200, []⟩ false, .respMsg ⟨404, []⟩ true] =
      .running ⟨0, [], none, [], [⟨404, []⟩], []⟩) := by
  decide

/-! ## C6: 200 response with Transport on an empty FIFO -/

/-- C6 counterexample.  The claim says a 200 response carrying a Transport
header that arrives while the pending-setup FIFO is empty is a fatal session
error.  In the code pop_front returning None simply skips the injection block
(the if-let on line 156): the response is forwarded unmodified and the loop
continues, as this trace shows (a second response is still processed
afterwards and the session never errors). -/
theorem c6_empty_fifo_counterexample :
    runSession "u" st0
      [.respMsg ⟨200, [("Transport", "RTP/AVP;server_port=7000-7001")]⟩ true,
       .respMsg ⟨200, []⟩ true] =
      .running ⟨0, [], none, [],
        [⟨200, [("Transport", "RTP/AVP;server_port=7000-7001")]⟩, ⟨200, []⟩], []⟩ := by
  decide

/-- C6 (amended): when a 200 response with a Transport key arrives on an empty
FIFO, the session does not fail: the loop continues, the response is forwarded
unmodified, the FIFO stays empty and no relay is spawned. -/
theorem c6_empty_fifo_forwards_unmodified (st : St) (r : RespS)
    (hp : st.pending = []) (hs : r.status = 200)
    (ht : hmContains r.headers "Transport" = true) :
    stepIsCont (step st (.respMsg r true)) = true ∧
    (stepState (step st (.respMsg r true))).sentToBrowser = st.sentToBrowser ++ [r] ∧
    (stepState (step st (.respMsg r true))).pending = [] ∧
    (stepState (step st (.respMsg r true))).spawned = st.spawned := by
  cases hcap : hmGet r.headers "Session" with
  | none => refine ⟨?_, ?_, ?_, ?_⟩ <;> simp [step, hcap, hs, ht, hp, stepIsCont, stepState]
  | some sid =>
    by_cases hnone : st.sessionId.isNone = true <;>
      refine ⟨?_, ?_, ?_, ?_⟩ <;>
        simp [step, hcap, hs, ht, hp, hnone, stepIsCont, stepState]

/-- C6 witness. -/
theorem c6_empty_fifo_witness :
    stepIsCont (step st0 (.respMsg ⟨200, [("Transport", "T")]⟩ true)) = true ∧
    (stepState (step st0 (.respMsg ⟨200, [("Transport", "T")]⟩ true))).sentToBrowser =
      st0.sentToBrowser ++ [⟨200, [("Transport", "T")]⟩] ∧
    (stepState (step st0 (.respMsg ⟨200, [("Transport", "T")]⟩ true))).pending = [] ∧
    (stepState (step st0 (.respMsg ⟨200, [("Transport", "T")]⟩ true))).spawned = st0.spawned :=
  c6_empty_fifo_forwards_unmodified st0 ⟨200, [("Transport", "T")]⟩
    (by decide) (by decide) (by decide)

/-! ## C9: relay termination on send_datagram failure -/

/-- C9 counterexample.  The claim says a failed binary-frame send on the
paired-socket data channel is surfaced to the relay as an error and stops it.
In transport.rs lines 42-48 the WebSocket arm of send_datagram logs the error
of ws.send and returns Ok(()), so the relay sees success and keeps looping. -/
theorem c9_ws_send_error_swallowed_counterexample :
    sendDatagram .ws .err = .ok () ∧
    relayStep .ws (.recv 4 .err) = .cont ∧
    ¬ relayStep .ws (.recv 4 .err) = .stopErr := by
  refine ⟨rfl, by decide, by decide⟩

/-- C9 (amended): the relay terminates with an error exactly when
send_datagram returns an error.  On the WebTransport backend an underlying
send failure propagates and stops the relay; on the WebSocket backend the
underlying failure is swallowed inside send_datagram, so the relay continues
regardless of the send outcome. -/
theorem c9_relay_send_failure (n : Nat) (io : IoOutcome) :
    relayStep .wt (.recv n .err) = .stopErr ∧
    relayStep .wt (.recv n .ok) = .cont ∧
    relayStep .ws (.recv n io) = .cont := by
  refine ⟨rfl, rfl, ?_⟩
  cases io <;> rfl

/-! ## C10: non-text frames on the WebSocket control channel -/

/-- C10 (confirmed): on the paired-socket backend, any frame that is neither a
text frame nor a close frame makes read_control return Ok(0) (the wildcard arm
on transport.rs line 101); the control loop treats 0 as orderly client close
(proxy.rs lines 79-82), breaks, and runs the cleanup block: the session result
is not errored, cleanup ran, and the TEARDOWN is sent iff a session id was
captured. -/
theorem c10_nontext_frame_closes_session (f : WsFrame) (url : String) (st : St) (rest : List Ev)
    (h1 : isTextFrame f = false) (h2 : ¬ f = WsFrame.close) :
    wsReadFrame f = .ok 0 ∧
    (outDone (runSession url st (.browserClose :: rest))).map
        (fun r => (r.errored, r.cleanupRan)) = some (false, true) ∧
    (outDone (runSession url st (.browserClose :: rest))).bind (fun r => r.teardown) =
      st.sessionId.map (teardownMsg url) := by
  refine ⟨?_, ?_, ?_⟩
  · cases f with
    | text s => simp [isTextFrame] at h1
    | close => exact absurd rfl h2
    | binary p => rfl
    | ping => rfl
    | pong => rfl
  · simp [runSession, step, finishClean, outDone]
  · simp [runSession, step, finishClean, outDone]

/-- C10 witness: a binary frame on the control channel of a session that has
captured session id 9. -/
theorem c10_nontext_frame_closes_session_witness :
    wsReadFrame (.binary [1, 2, 3]) = .ok 0 ∧
    (outDone (runSession "u" ⟨0, [], some "9", [], [], []⟩ [.browserClose])).map
        (fun r => (r.errored, r.cleanupRan)) = some (false, true) ∧
    (outDone (runSession "u" ⟨0, [], some "9", [], [], []⟩ [.browserClose])).bind
        (fun r => r.teardown) = (some "9").map (teardownMsg "u") :=
  c10_nontext_frame_closes_session (.binary [1, 2, 3]) "u" ⟨0, [], some "9", [], [], []⟩ []
    (by decide) (by decide)

/-! ## Helper lemmas on the control loop -/

theorem reqEvents_cons (x : ReqS × Nat × Nat) (rs : List (ReqS × Nat × Nat)) :
    reqEvents (x :: rs) = Ev.reqMsg x.1 x.2.1 x.2.2 true :: reqEvents rs := rfl

theorem respEvents_cons (r : RespS) (rs : List RespS) :
    respEvents (r :: rs) = Ev.respMsg r true :: respEvents rs := rfl

theorem runSession_cont (url : String) (st st' : St) (e : Ev) (rest : List Ev)
    (h : step st e = .cont st') :
    runSession url st (e :: rest) = runSession url st' rest := by
  simp only [runSession, h]

theorem step_req_setup (st : St) (r : ReqS) (p1 p2 : Nat) (h : r.method = "SETUP") :
    step st (.reqMsg r p1 p2 true) =
      .cont ⟨(st.nextChannelId + 2) % 256,
             st.pending ++ [(st.nextChannelId % 256, (st.nextChannelId + 1) % 256)],
             st.sessionId,
             st.sentToOrigin ++
               [{ r with headers := hmModify r.headers "Transport" (fun _ => forcedTransport p1 p2) }],
             st.sentToBrowser, st.spawned⟩ := by
  simp [step, h]

theorem step_req_other (st : St) (r : ReqS) (p1 p2 : Nat) (h : ¬ r.method = "SETUP") :
    step st (.reqMsg r p1 p2 true) = .cont { st with sentToOrigin := st.sentToOrigin ++ [r] } := by
  have hb : (r.method == "SETUP") = false := by simp [h]
  simp [step, hb]

theorem step_resp_hit (st : St) (r : RespS) (p : Nat × Nat) (prest : List (Nat × Nat))
    (hs : r.status = 200) (ht : hmContains r.headers "Transport" = true)
    (hp : st.pending = p :: prest) :
    ∃ sid, step st (.respMsg r true) =
      .cont ⟨st.nextChannelId, prest, sid, st.sentToOrigin,
             st.sentToBrowser ++ [injectResp r p], st.spawned ++ [p]⟩ := by
  cases hcap : hmGet r.headers "Session" with
  | none => exact ⟨st.sessionId, by simp [step, hcap, hs, ht, hp, injectResp]⟩
  | some sid =>
    by_cases hnone : st.sessionId.isNone = true
    · exact ⟨some (stripAfterSemi sid), by simp [step, hcap, hs, ht, hp, hnone, injectResp]⟩
    · exact ⟨st.sessionId, by simp [step, hcap, hs, ht, hp, hnone, injectResp]⟩

theorem allocPairs_succ (c k : Nat) :
    allocPairs c (k + 1) = (c % 256, (c + 1) % 256) :: allocPairs ((c + 2) % 256) k := by
  unfold allocPairs
  rw [List.range_succ_eq_map]
  simp only [List.map_cons, List.map_map]
  congr 1
  apply List.map_congr_left
  intro a ha
  simp only [Function.comp_apply, Prod.mk.injEq]
  omega

theorem countSetups_cons (x : ReqS × Nat × Nat) (rs : List (ReqS × Nat × Nat)) :
    countSetups (x :: rs) =
      (if x.1.method == "SETUP" then 1 else 0) + countSetups rs := by
  by_cases h : (x.1.method == "SETUP") = true
  · simp [countSetups, List.filter_cons, h, Nat.add_comm]
  · simp only [Bool.not_eq_true] at h
    simp [countSetups, List.filter_cons, h]

theorem reqPhase_run (url : String) (rs : List (ReqS × Nat × Nat)) (st : St) (tail : List Ev) :
    ∃ st', runSession url st (reqEvents rs ++ tail) = runSession url st' tail ∧
      st'.pending = st.pending ++ allocPairs st.nextChannelId (countSetups rs) ∧
      st'.sessionId = st.sessionId ∧
      st'.sentToBrowser = st.sentToBrowser := by
  induction rs generalizing st with
  | nil => exact ⟨st, rfl, by simp [countSetups, allocPairs], rfl, rfl⟩
  | cons x rs ih =>
    by_cases h : x.1.method = "SETUP"
    · have hstep := step_req_setup st x.1 x.2.1 x.2.2 h
      obtain ⟨st', hrun, hp, hs, hb⟩ :=
        ih ⟨(st.nextChannelId + 2) % 256,
            st.pending ++ [(st.nextChannelId % 256, (st.nextChannelId + 1) % 256)],
            st.sessionId,
            st.sentToOrigin ++ [{ x.1 with headers := hmModify x.1.headers "Transport" (fun _ => forcedTransport x.2.1 x.2.2) }],
            st.sentToBrowser, st.spawned⟩
      dsimp only at hrun hp hs hb
      refine ⟨st', ?_, ?_, hs, hb⟩
      · rw [reqEvents_cons, List.cons_append, runSession_cont url _ _ _ _ hstep, hrun]
      · rw [hp]
        have hbeq : (x.1.method == "SETUP") = true := by simp [h]
        simp only [countSetups_cons, hbeq, if_true]
        rw [Nat.add_comm 1 (countSetups rs), allocPairs_succ]
        simp [List.append_assoc]
    · have hstep := step_req_other st x.1 x.2.1 x.2.2 h
      obtain ⟨st', hrun, hp, hs, hb⟩ := ih { st with sentToOrigin := st.sentToOrigin ++ [x.1] }
      dsimp only at hrun hp hs hb
      refine ⟨st', ?_, ?_, hs, hb⟩
      · rw [reqEvents_cons, List.cons_append, runSession_cont url _ _ _ _ hstep, hrun]
      · rw [hp]
        have hbeq : (x.1.method == "SETUP") = false := by simp [h]
        simp [countSetups_cons, hbeq]

theorem respPhase_run (url : String) (resps : List RespS) (st : St)
    (hall : ∀ r ∈ resps, r.status = 200 ∧ hmContains r.headers "Transport" = true)
    (hlen : resps.length ≤ st.pending.length) :
    ∃ st', runSession url st (respEvents resps) = .running st' ∧
      st'.sentToBrowser = st.sentToBrowser ++ List.zipWith injectResp resps st.pending ∧
      st'.pending = st.pending.drop resps.length := by
  induction resps generalizing st with
  | nil => exact ⟨st, rfl, by simp, by simp⟩
  | cons r rs ih =>
    cases hp : st.pending with
    | nil =>
      rw [hp] at hlen
      simp at hlen
    | cons p prest =>
      obtain ⟨hs, ht⟩ := hall r (by simp)
      obtain ⟨sid, hstep⟩ := step_resp_hit st r p prest hs ht hp
      obtain ⟨st', hrun, hsent, hpend⟩ :=
        ih ⟨st.nextChannelId, prest, sid, st.sentToOrigin,
            st.sentToBrowser ++ [injectResp r p], st.spawned ++ [p]⟩
          (fun q hq => hall q (by simp [hq]))
          (by
            dsimp only
            rw [hp] at hlen
            simpa using Nat.le_of_succ_le_succ hlen)
      dsimp only at hrun hsent hpend
      refine ⟨st', ?_, ?_, ?_⟩
      · rw [respEvents_cons, runSession_cont url _ _ _ _ hstep, hrun]
      · rw [hsent]
        simp [List.append_assoc]
      · rw [hpend]
        simp

theorem getElem?_zipWith' {α β γ : Type} (f : α → β → γ) :
    ∀ (as : List α) (bs : List β) (i : Nat),
      (List.zipWith f as bs)[i]? = (as[i]?).bind (fun a => (bs[i]?).map (fun b => f a b))
  | [], _, _ => by simp
  | _ :: _, [], _ => by simp
  | _ :: _, _ :: _, 0 => by simp
  | a :: as, b :: bs, (i + 1) => by
    simpa using getElem?_zipWith' f as bs i

theorem allocPairs_getElem (k i : Nat) (hi : i < k) (hb : 2 * k ≤ 256) :
    (allocPairs 0 k)[i]? = some (2 * i, 2 * i + 1) := by
  unfold allocPairs
  rw [List.getElem?_map, List.getElem?_range hi]
  simp only [Option.map_some', Option.some.injEq, Prod.mk.injEq]
  omega

theorem allocPairs_length (c k : Nat) : (allocPairs c k).length = k := by
  simp [allocPairs]

/-! ## C1: FIFO correlation and channel-id allocation -/

/-- C1 counterexample.  The claim asserts pairs (2i, 2i+1) strictly increasing
without bound, but next_channel_id is a u8 (the PendingSetup fields are u8):
after 128 SETUPs the counter wraps, and the 129th SETUP (index 128) is
assigned the pair (0, 1), not (256, 257) as the claim demands.  (In a debug
build the increment would panic instead; either way no SETUP past the 128th
gets the claimed pair.) -/
theorem c1_channel_id_wraparound_counterexample :
    ((outState (runSession "u" st0 (reqEvents (List.replicate 129 (⟨"SETUP", []⟩, 0, 0))))).pending)[128]? =
      some (0, 1) ∧
    ¬ (((0 : Nat), (1 : Nat)) = ((256 : Nat), (257 : Nat))) := by
  constructor
  · decide
  · decide

/-- C1 (amended): for every trace of k SETUPs interleaved with arbitrary
non-SETUP requests followed by k responses with status 200 and a Transport
key, provided 2k does not exceed the one-byte channel-id space (2k at most
256), the i-th SETUP is assigned the pair (2i, 2i+1) — strictly increasing by
2 from 0 — and the i-th response's Transport value is suffixed with exactly
that pair (FIFO correlation). -/
theorem c1_fifo_correlation (url : String) (rs : List (ReqS × Nat × Nat)) (resps : List RespS)
    (i : Nat)
    (hall : ∀ r ∈ resps, r.status = 200 ∧ hmContains r.headers "Transport" = true)
    (hk : resps.length = countSetups rs)
    (hbound : 2 * resps.length ≤ 256)
    (hi : i < resps.length) :
    ((outState (runSession url st0 (reqEvents rs))).pending)[i]? = some (2 * i, 2 * i + 1) ∧
    (((outState (runSession url st0 (reqEvents rs ++ respEvents resps))).sentToBrowser)[i]?).bind
        (fun r => hmGet r.headers "Transport") =
      ((resps[i]?).bind (fun r => hmGet r.headers "Transport")).map
        (fun v => v ++ ";x-wt-channel-id=" ++ toString (2 * i) ++ "-" ++ toString (2 * i + 1)) := by
  constructor
  · obtain ⟨st', hrun, hp, _, _⟩ := reqPhase_run url rs st0 []
    rw [List.append_nil] at hrun
    rw [hrun]
    simp only [runSession, outState]
    rw [hp]
    simp only [st0, List.nil_append]
    rw [← hk]
    exact allocPairs_getElem resps.length i hi hbound
  · obtain ⟨st', hrun, hp, _, hb⟩ := reqPhase_run url rs st0 (respEvents resps)
    obtain ⟨st'', hrun2, hsent, _⟩ := respPhase_run url resps st'
      hall
      (by rw [hp]; simp [st0, allocPairs_length, hk])
    rw [hrun, hrun2]
    simp only [outState]
    rw [hsent, hb, hp]
    simp only [st0, List.nil_append]
    rw [getElem?_zipWith']
    have hri : resps[i]? = some (resps[i]) := List.getElem?_eq_getElem hi
    rw [hri]
    rw [← hk]
    rw [allocPairs_getElem resps.length i hi hbound]
    simp only [Option.map_some', Option.some_bind, injectResp]
    rw [hmGet_modify]
    cases hg : hmGet (resps[i]).headers "Transport" with
    | none => simp
    | some v =>
      simp only [Option.map_some']
      simp [channelIdSuffix, String.append_assoc]

/-- C1 witness: one SETUP then one 200+Transport response; the response gets
suffix 0-1. -/
theorem c1_fifo_correlation_witness :
    ((outState (runSession "u" st0 (reqEvents [(⟨"SETUP", [("Transport", "RTP/AVP")]⟩, 7000, 7001)]))).pending)[0]? =
      some (2 * 0, 2 * 0 + 1) ∧
    (((outState (runSession "u" st0
        (reqEvents [(⟨"SETUP", [("Transport", "RTP/AVP")]⟩, 7000, 7001)] ++
         respEvents [⟨200, [("Transport", "RTP/AVP;server_port=7000-7001")]⟩]))).sentToBrowser)[0]?).bind
        (fun r => hmGet r.headers "Transport") =
      (([⟨200, [("Transport", "RTP/AVP;server_port=7000-7001")]⟩] :
          List RespS)[0]?.bind (fun r => hmGet r.headers "Transport")).map
        (fun v => v ++ ";x-wt-channel-id=" ++ toString (2 * 0) ++ "-" ++ toString (2 * 0 + 1)) :=
  c1_fifo_correlation "u" [(⟨"SETUP", [("Transport", "RTP/AVP")]⟩, 7000, 7001)]
    [⟨200, [("Transport", "RTP/AVP;server_port=7000-7001")]⟩] 0
    (by decide) (by decide) (by decide) (by decide)

/-! ## Helper lemmas for the header map characterization -/

theorem hmGet_insert {α β : Type} [BEq α] [LawfulBEq α] (m : List (α × β)) (k' : α) (v : β) (k : α) :
    hmGet (hmInsert m k' v) k = if k' == k then some v else hmGet m k := by
  induction m with
  | nil =>
    by_cases hkk : (k' == k) = true
    · simp [hmInsert, hmGet, hkk]
    · simp only [Bool.not_eq_true] at hkk
      simp [hmInsert, hmGet, hkk]
  | cons p t ih =>
    by_cases hpk' : (p.1 == k') = true
    · have hpe : p.1 = k' := eq_of_beq hpk'
      rw [show hmInsert (p :: t) k' v = hmInsert t k' v by simp [hmInsert, List.filter_cons, hpk']]
      rw [ih]
      by_cases hkk : (k' == k) = true
      · simp [hkk]
      · simp only [Bool.not_eq_true] at hkk
        have hpk : (p.1 == k) = false := by
          rw [hpe]; exact hkk
        simp [hkk, hmGet, List.find?_cons, hpk]
    · have hpk'f : (p.1 == k') = false := by simpa using hpk'
      rw [show hmInsert (p :: t) k' v = p :: hmInsert t k' v by
        simp [hmInsert, List.filter_cons, hpk'f]]
      by_cases hpk : (p.1 == k) = true
      · have hkk : (k' == k) = false := by
          rw [Bool.eq_false_iff]
          intro hc
          rw [eq_of_beq hpk, ← eq_of_beq hc] at hpk'f
          simp at hpk'f
        simp [hmGet, List.find?_cons, hpk, hkk]
      · have hpkf : (p.1 == k) = false := by simpa using hpk
        rw [show hmGet (p :: hmInsert t k' v) k = hmGet (hmInsert t k' v) k by
          simp [hmGet, List.find?_cons, hpkf]]
        rw [show hmGet (p :: t) k = hmGet t k by simp [hmGet, List.find?_cons, hpkf]]
        exact ih

theorem headersOf_foldl_get (ls : List (List Nat)) (k : List Nat) :
    ∀ m, hmGet (ls.foldl
        (fun m line =>
          match splitColon line with
          | some kv => hmInsert m (trimB kv.1) (trimB kv.2)
          | none => m) m) k =
      (((headerPairs ls).reverse.find? (fun p => p.1 == k)).map (fun p => p.2)).or (hmGet m k) := by
  induction ls with
  | nil =>
    intro m
    simp [headerPairs]
  | cons line rest ih =>
    intro m
    rw [List.foldl_cons]
    cases hsplit : splitColon line with
    | none =>
      rw [ih]
      simp [headerPairs, List.filterMap_cons, hsplit]
    | some kv =>
      rw [ih]
      have hpairs : headerPairs (line :: rest) = (trimB kv.1, trimB kv.2) :: headerPairs rest := by
        simp [headerPairs, List.filterMap_cons, hsplit]
      rw [hpairs]
      rw [show ((trimB kv.1, trimB kv.2) :: headerPairs rest).reverse =
            (headerPairs rest).reverse ++ [(trimB kv.1, trimB kv.2)] by simp]
      rw [List.find?_append]
      rw [hmGet_insert]
      cases hfind : (headerPairs rest).reverse.find? (fun p => p.1 == k) with
      | some p => simp
      | none =>
        by_cases hkk : (trimB kv.1 == k) = true
        · simp [List.find?, hkk]
        · have hkkf : (trimB kv.1 == k) = false := by simpa using hkk
          simp [List.find?, hkkf]

/-! ## C7: header lookup semantics -/

/-- C7 counterexample.  The claim says header lookup is case-insensitive and
that the first of duplicate names wins.  The code stores headers in a
HashMap String String with exact keys (rtsp.rs lines 47-52 and 116-121):
a request with a lowercase transport header parses with no "Transport" key at
all (the proxy's exact-case lookups miss it), duplicate identical names keep
the last value (HashMap::insert overwrites), and the same holds for the
response parser and the proxy's "Session" lookup. -/
theorem c7_header_lookup_counterexample :
    reqParse (asciiBytes "SETUP r RTSP/1.0\r\ntransport: x\r\nA: 1\r\nA: 2\r\n\r\n") =
      .ok (some
        (⟨asciiBytes "SETUP", asciiBytes "r", asciiBytes "RTSP/1.0",
          [(asciiBytes "transport", asciiBytes "x"), (asciiBytes "A", asciiBytes "2")], []⟩, 46)) ∧
    hmGet [(asciiBytes "transport", asciiBytes "x"), (asciiBytes "A", asciiBytes "2")]
        (asciiBytes "Transport") = none ∧
    hmGet [(asciiBytes "transport", asciiBytes "x"), (asciiBytes "A", asciiBytes "2")]
        (asciiBytes "A") = some (asciiBytes "2") ∧
    respParse (asciiBytes "RTSP/1.0 200 OK\r\nsession: 1\r\n\r\n") =
      .ok (some
        (⟨asciiBytes "RTSP/1.0", 200, asciiBytes "OK",
          [(asciiBytes "session", asciiBytes "1")], []⟩, 31)) ∧
    hmGet [(asciiBytes "session", asciiBytes "1")] (asciiBytes "Session") = none := by
  refine ⟨by decide, by decide, by decide, by decide, by decide⟩

/-- C7 (amended): lookup on a parsed header map is exact (case-sensitive), and
when duplicate names occur the last occurrence wins: for every list of header
lines and every key, the lookup built by the parsers' insert loop (headersOf)
returns the value of the last line whose trimmed name equals the key exactly,
values trimmed of ASCII whitespace. -/
theorem c7_header_lookup_last_wins (ls : List (List Nat)) (k : List Nat) :
    hmGet (headersOf ls) k =
      (((headerPairs ls).reverse.find? (fun p => p.1 == k)).map (fun p => p.2)) := by
  have h := headersOf_foldl_get ls k []
  rw [headersOf, h]
  cases hfind : ((headerPairs ls).reverse.find? (fun p => p.1 == k)) with
  | none => simp [hmGet]
  | some p => simp [hmGet]

/-! ## Unfolding lemmas for the lossy UTF-8 decoding -/

theorem utf8Lossy_ascii (b : Nat) (t : List Nat) (h : b < 0x80) :
    utf8Lossy (b :: t) = b :: utf8Lossy t := by
  conv_lhs => unfold utf8Lossy
  rw [if_pos h]

theorem utf8Lossy_two (b c : Nat) (t : List Nat) (h80 : ¬ b < 0x80)
    (hr : 0xC2 ≤ b ∧ b ≤ 0xDF) (hc : contB c = true) :
    utf8Lossy (b :: c :: t) = b :: c :: utf8Lossy t := by
  conv_lhs => unfold utf8Lossy
  rw [if_neg h80]
  rw [if_pos (by simp only [Bool.and_eq_true, decide_eq_true_eq]; exact hr)]
  simp [hc]

theorem utf8Lossy_two_nil (b : Nat) (h80 : ¬ b < 0x80) (hr : 0xC2 ≤ b ∧ b ≤ 0xDF) :
    utf8Lossy [b] = replChar := by
  conv_lhs => unfold utf8Lossy
  rw [if_neg h80]
  rw [if_pos (by simp only [Bool.and_eq_true, decide_eq_true_eq]; exact hr)]

theorem utf8Lossy_three (b c d : Nat) (t : List Nat) (h80 : ¬ b < 0x80)
    (hr2 : ¬ (0xC2 ≤ b ∧ b ≤ 0xDF)) (hr : 0xE0 ≤ b ∧ b ≤ 0xEF)
    (hc : cont3ok b c = true) (hd : contB d = true) :
    utf8Lossy (b :: c :: d :: t) = b :: c :: d :: utf8Lossy t := by
  conv_lhs => unfold utf8Lossy
  rw [if_neg h80]
  rw [if_neg (by simp only [Bool.and_eq_true, decide_eq_true_eq]; exact hr2)]
  rw [if_pos (by simp only [Bool.and_eq_true, decide_eq_true_eq]; exact hr)]
  simp [hc, hd]

theorem utf8Lossy_three_nil (b : Nat) (h80 : ¬ b < 0x80)
    (hr2 : ¬ (0xC2 ≤ b ∧ b ≤ 0xDF)) (hr : 0xE0 ≤ b ∧ b ≤ 0xEF) :
    utf8Lossy [b] = replChar := by
  conv_lhs => unfold utf8Lossy
  rw [if_neg h80]
  rw [if_neg (by simp only [Bool.and_eq_true, decide_eq_true_eq]; exact hr2)]
  rw [if_pos (by simp only [Bool.and_eq_true, decide_eq_true_eq]; exact hr)]

theorem utf8Lossy_three_one (b c : Nat) (h80 : ¬ b < 0x80)
    (hr2 : ¬ (0xC2 ≤ b ∧ b ≤ 0xDF)) (hr : 0xE0 ≤ b ∧ b ≤ 0xEF)
    (hc : cont3ok b c = true) :
    utf8Lossy [b, c] = replChar := by
  conv_lhs => unfold utf8Lossy
  rw [if_neg h80]
  rw [if_neg (by simp only [Bool.and_eq_true, decide_eq_true_eq]; exact hr2)]
  rw [if_pos (by simp only [Bool.and_eq_true, decide_eq_true_eq]; exact hr)]
  simp [hc]

theorem utf8Lossy_four (b c d e : Nat) (t : List Nat) (h80 : ¬ b < 0x80)
    (hr2 : ¬ (0xC2 ≤ b ∧ b ≤ 0xDF)) (hr3 : ¬ (0xE0 ≤ b ∧ b ≤ 0xEF))
    (hr : 0xF0 ≤ b ∧ b ≤ 0xF4)
    (hc : cont4ok b c = true) (hd : contB d = true) (he : contB e = true) :
    utf8Lossy (b :: c :: d :: e :: t) = b :: c :: d :: e :: utf8Lossy t := by
  conv_lhs => unfold utf8Lossy
  rw [if_neg h80]
  rw [if_neg (by simp only [Bool.and_eq_true, decide_eq_true_eq]; exact hr2)]
  rw [if_neg (by simp only [Bool.and_eq_true, decide_eq_true_eq]; exact hr3)]
  rw [if_pos (by simp only [Bool.and_eq_true, decide_eq_true_eq]; exact hr)]
  simp [hc, hd, he]

theorem utf8Lossy_four_nil (b : Nat) (h80 : ¬ b < 0x80)
    (hr2 : ¬ (0xC2 ≤ b ∧ b ≤ 0xDF)) (hr3 : ¬ (0xE0 ≤ b ∧ b ≤ 0xEF))
    (hr : 0xF0 ≤ b ∧ b ≤ 0xF4) :
    utf8Lossy [b] = replChar := by
  conv_lhs => unfold utf8Lossy
  rw [if_neg h80]
  rw [if_neg (by simp only [Bool.and_eq_true, decide_eq_true_eq]; exact hr2)]
  rw [if_neg (by simp only [Bool.and_eq_true, decide_eq_true_eq]; exact hr3)]
  rw [if_pos (by simp only [Bool.and_eq_true, decide_eq_true_eq]; exact hr)]

theorem utf8Lossy_four_one (b c : Nat) (h80 : ¬ b < 0x80)
    (hr2 : ¬ (0xC2 ≤ b ∧ b ≤ 0xDF)) (hr3 : ¬ (0xE0 ≤ b ∧ b ≤ 0xEF))
    (hr : 0xF0 ≤ b ∧ b ≤ 0xF4) (hc : cont4ok b c = true) :
    utf8Lossy [b, c] = replChar := by
  conv_lhs => unfold utf8Lossy
  rw [if_neg h80]
  rw [if_neg (by simp only [Bool.and_eq_true, decide_eq_true_eq]; exact hr2)]
  rw [if_neg (by simp only [Bool.and_eq_true, decide_eq_true_eq]; exact hr3)]
  rw [if_pos (by simp only [Bool.and_eq_true, decide_eq_true_eq]; exact hr)]
  simp [hc]

theorem utf8Lossy_four_two (b c d : Nat) (h80 : ¬ b < 0x80)
    (hr2 : ¬ (0xC2 ≤ b ∧ b ≤ 0xDF)) (hr3 : ¬ (0xE0 ≤ b ∧ b ≤ 0xEF))
    (hr : 0xF0 ≤ b ∧ b ≤ 0xF4) (hc : cont4ok b c = true) (hd : contB d = true) :
    utf8Lossy [b, c, d] = replChar := by
  conv_lhs => unfold utf8Lossy
  rw [if_neg h80]
  rw [if_neg (by simp only [Bool.and_eq_true, decide_eq_true_eq]; exact hr2)]
  rw [if_neg (by simp only [Bool.and_eq_true, decide_eq_true_eq]; exact hr3)]
  rw [if_pos (by simp only [Bool.and_eq_true, decide_eq_true_eq]; exact hr)]
  simp [hc, hd]

theorem validUtf8_ascii (b : Nat) (t : List Nat) (h : b < 0x80) :
    validUtf8 (b :: t) = validUtf8 t := by
  conv_lhs => unfold validUtf8
  rw [if_pos h]

theorem validUtf8_two (b c : Nat) (t : List Nat) (h80 : ¬ b < 0x80)
    (hr : 0xC2 ≤ b ∧ b ≤ 0xDF) :
    validUtf8 (b :: c :: t) = (contB c && validUtf8 t) := by
  conv_lhs => unfold validUtf8
  rw [if_neg h80]
  rw [if_pos (by simp only [Bool.and_eq_true, decide_eq_true_eq]; exact hr)]

theorem validUtf8_two_nil (b : Nat) (h80 : ¬ b < 0x80) (hr : 0xC2 ≤ b ∧ b ≤ 0xDF) :
    validUtf8 [b] = false := by
  conv_lhs => unfold validUtf8
  rw [if_neg h80]
  rw [if_pos (by simp only [Bool.and_eq_true, decide_eq_true_eq]; exact hr)]

theorem validUtf8_three (b c d : Nat) (t : List Nat) (h80 : ¬ b < 0x80)
    (hr2 : ¬ (0xC2 ≤ b ∧ b ≤ 0xDF)) (hr : 0xE0 ≤ b ∧ b ≤ 0xEF) :
    validUtf8 (b :: c :: d :: t) = (cont3ok b c && (contB d && validUtf8 t)) := by
  conv_lhs => unfold validUtf8
  rw [if_neg h80]
  rw [if_neg (by simp only [Bool.and_eq_true, decide_eq_true_eq]; exact hr2)]
  rw [if_pos (by simp only [Bool.and_eq_true, decide_eq_true_eq]; exact hr)]

theorem validUtf8_three_nil (b : Nat) (h80 : ¬ b < 0x80)
    (hr2 : ¬ (0xC2 ≤ b ∧ b ≤ 0xDF)) (hr : 0xE0 ≤ b ∧ b ≤ 0xEF) :
    validUtf8 [b] = false := by
  conv_lhs => unfold validUtf8
  rw [if_neg h80]
  rw [if_neg (by simp only [Bool.and_eq_true, decide_eq_true_eq]; exact hr2)]
  rw [if_pos (by simp only [Bool.and_eq_true, decide_eq_true_eq]; exact hr)]

theorem validUtf8_three_one (b c : Nat) (h80 : ¬ b < 0x80)
    (hr2 : ¬ (0xC2 ≤ b ∧ b ≤ 0xDF)) (hr : 0xE0 ≤ b ∧ b ≤ 0xEF) :
    validUtf8 [b, c] = false := by
  conv_lhs => unfold validUtf8
  rw [if_neg h80]
  rw [if_neg (by simp only [Bool.and_eq_true, decide_eq_true_eq]; exact hr2)]
  rw [if_pos (by simp only [Bool.and_eq_true, decide_eq_true_eq]; exact hr)]
  simp

theorem validUtf8_four (b c d e : Nat) (t : List Nat) (h80 : ¬ b < 0x80)
    (hr2 : ¬ (0xC2 ≤ b ∧ b ≤ 0xDF)) (hr3 : ¬ (0xE0 ≤ b ∧ b ≤ 0xEF))
    (hr : 0xF0 ≤ b ∧ b ≤ 0xF4) :
    validUtf8 (b :: c :: d :: e :: t) =
      (cont4ok b c && (contB d && (contB e && validUtf8 t))) := by
  conv_lhs => unfold validUtf8
  rw [if_neg h80]
  rw [if_neg (by simp only [Bool.and_eq_true, decide_eq_true_eq]; exact hr2)]
  rw [if_neg (by simp only [Bool.and_eq_true, decide_eq_true_eq]; exact hr3)]
  rw [if_pos (by simp only [Bool.and_eq_true, decide_eq_true_eq]; exact hr)]

theorem validUtf8_four_nil (b : Nat) (h80 : ¬ b < 0x80)
    (hr2 : ¬ (0xC2 ≤ b ∧ b ≤ 0xDF)) (hr3 : ¬ (0xE0 ≤ b ∧ b ≤ 0xEF))
    (hr : 0xF0 ≤ b ∧ b ≤ 0xF4) :
    validUtf8 [b] = false := by
  conv_lhs => unfold validUtf8
  rw [if_neg h80]
  rw [if_neg (by simp only [Bool.and_eq_true, decide_eq_true_eq]; exact hr2)]
  rw [if_neg (by simp only [Bool.and_eq_true, decide_eq_true_eq]; exact hr3)]
  rw [if_pos (by simp only [Bool.and_eq_true, decide_eq_true_eq]; exact hr)]

theorem validUtf8_four_one (b c : Nat) (h80 : ¬ b < 0x80)
    (hr2 : ¬ (0xC2 ≤ b ∧ b ≤ 0xDF)) (hr3 : ¬ (0xE0 ≤ b ∧ b ≤ 0xEF))
    (hr : 0xF0 ≤ b ∧ b ≤ 0xF4) :
    validUtf8 [b, c] = false := by
  conv_lhs => unfold validUtf8
  rw [if_neg h80]
  rw [if_neg (by simp only [Bool.and_eq_true, decide_eq_true_eq]; exact hr2)]
  rw [if_neg (by simp only [Bool.and_eq_true, decide_eq_true_eq]; exact hr3)]
  rw [if_pos (by simp only [Bool.and_eq_true, decide_eq_true_eq]; exact hr)]
  simp

theorem validUtf8_four_two (b c d : Nat) (h80 : ¬ b < 0x80)
    (hr2 : ¬ (0xC2 ≤ b ∧ b ≤ 0xDF)) (hr3 : ¬ (0xE0 ≤ b ∧ b ≤ 0xEF))
    (hr : 0xF0 ≤ b ∧ b ≤ 0xF4) :
    validUtf8 [b, c, d] = false := by
  conv_lhs => unfold validUtf8
  rw [if_neg h80]
  rw [if_neg (by simp only [Bool.and_eq_true, decide_eq_true_eq]; exact hr2)]
  rw [if_neg (by simp only [Bool.and_eq_true, decide_eq_true_eq]; exact hr3)]
  rw [if_pos (by simp only [Bool.and_eq_true, decide_eq_true_eq]; exact hr)]
  simp

theorem validUtf8_bad (b : Nat) (t : List Nat) (h80 : ¬ b < 0x80)
    (hr2 : ¬ (0xC2 ≤ b ∧ b ≤ 0xDF)) (hr3 : ¬ (0xE0 ≤ b ∧ b ≤ 0xEF))
    (hr4 : ¬ (0xF0 ≤ b ∧ b ≤ 0xF4)) :
    validUtf8 (b :: t) = false := by
  conv_lhs => unfold validUtf8
  rw [if_neg h80]
  rw [if_neg (by simp only [Bool.and_eq_true, decide_eq_true_eq]; exact hr2)]
  rw [if_neg (by simp only [Bool.and_eq_true, decide_eq_true_eq]; exact hr3)]
  rw [if_neg (by simp only [Bool.and_eq_true, decide_eq_true_eq]; exact hr4)]

/-! ## Structure of the lossy decoding on valid input -/

theorem utf8Lossy_append_of_valid_aux (n : Nat) :
    ∀ (h : List Nat), h.length ≤ n → validUtf8 h = true →
      ∀ t, utf8Lossy (h ++ t) = h ++ utf8Lossy t := by
  induction n with
  | zero =>
    intro h hl _ t
    have : h = [] := List.eq_nil_of_length_eq_zero (Nat.le_zero.mp hl)
    subst this
    simp
  | succ n ih =>
    intro h hl hv t
    match h, hl with
    | [], _ => simp
    | b :: h1, hl =>
      have hl1 : h1.length ≤ n := by simp at hl; omega
      by_cases h80 : b < 0x80
      · rw [validUtf8_ascii b h1 h80] at hv
        rw [List.cons_append, utf8Lossy_ascii b (h1 ++ t) h80, ih h1 hl1 hv t]
        rfl
      · by_cases hr2 : 0xC2 ≤ b ∧ b ≤ 0xDF
        · match h1, hl1 with
          | [], _ =>
            rw [validUtf8_two_nil b h80 hr2] at hv
            cases hv
          | c :: h2, hl1 =>
            rw [validUtf8_two b c h2 h80 hr2, Bool.and_eq_true] at hv
            rw [List.cons_append, List.cons_append,
              utf8Lossy_two b c (h2 ++ t) h80 hr2 hv.1,
              ih h2 (by simp at hl1; omega) hv.2 t]
            rfl
        · by_cases hr3 : 0xE0 ≤ b ∧ b ≤ 0xEF
          · match h1, hl1 with
            | [], _ =>
              rw [validUtf8_three_nil b h80 hr2 hr3] at hv
              cases hv
            | [c], _ =>
              rw [validUtf8_three_one b c h80 hr2 hr3] at hv
              cases hv
            | c :: d :: h3, hl1 =>
              rw [validUtf8_three b c d h3 h80 hr2 hr3, Bool.and_eq_true, Bool.and_eq_true] at hv
              rw [List.cons_append, List.cons_append, List.cons_append,
                utf8Lossy_three b c d (h3 ++ t) h80 hr2 hr3 hv.1 hv.2.1,
                ih h3 (by simp at hl1; omega) hv.2.2 t]
              rfl
          · by_cases hr4 : 0xF0 ≤ b ∧ b ≤ 0xF4
            · match h1, hl1 with
              | [], _ =>
                rw [validUtf8_four_nil b h80 hr2 hr3 hr4] at hv
                cases hv
              | [c], _ =>
                rw [validUtf8_four_one b c h80 hr2 hr3 hr4] at hv
                cases hv
              | [c, d], _ =>
                rw [validUtf8_four_two b c d h80 hr2 hr3 hr4] at hv
                cases hv
              | c :: d :: e :: h4, hl1 =>
                rw [validUtf8_four b c d e h4 h80 hr2 hr3 hr4, Bool.and_eq_true,
                  Bool.and_eq_true, Bool.and_eq_true] at hv
                rw [List.cons_append, List.cons_append, List.cons_append, List.cons_append,
                  utf8Lossy_four b c d e (h4 ++ t) h80 hr2 hr3 hr4 hv.1 hv.2.1 hv.2.2.1,
                  ih h4 (by simp at hl1; omega) hv.2.2.2 t]
                rfl
            · rw [validUtf8_bad b h1 h80 hr2 hr3 hr4] at hv
              cases hv

theorem utf8Lossy_append_of_valid (h : List Nat) (hv : validUtf8 h = true) (t : List Nat) :
    utf8Lossy (h ++ t) = h ++ utf8Lossy t :=
  utf8Lossy_append_of_valid_aux h.length h (Nat.le_refl _) hv t

theorem utf8Lossy_take_of_valid_aux (n : Nat) :
    ∀ (h : List Nat), h.length ≤ n → validUtf8 h = true → ∀ m,
      ∃ m', m' ≤ m ∧
        (utf8Lossy (h.take m) = h.take m' ∨
         utf8Lossy (h.take m) = h.take m' ++ replChar) := by
  induction n with
  | zero =>
    intro h hl _ m
    have : h = [] := List.eq_nil_of_length_eq_zero (Nat.le_zero.mp hl)
    subst this
    exact ⟨0, Nat.zero_le m, Or.inl (by simp [utf8Lossy])⟩
  | succ n ih =>
    intro h hl hv m
    match h, hl with
    | [], _ => exact ⟨0, Nat.zero_le m, Or.inl (by simp [utf8Lossy])⟩
    | b :: h1, hl =>
      have hl1 : h1.length ≤ n := by simp at hl; omega
      match m with
      | 0 => exact ⟨0, Nat.le_refl 0, Or.inl (by simp [utf8Lossy])⟩
      | m1 + 1 =>
        by_cases h80 : b < 0x80
        · rw [validUtf8_ascii b h1 h80] at hv
          obtain ⟨m', hm', hcase⟩ := ih h1 hl1 hv m1
          refine ⟨m' + 1, by omega, ?_⟩
          rw [List.take_succ_cons, List.take_succ_cons, utf8Lossy_ascii b _ h80]
          cases hcase with
          | inl hc => exact Or.inl (by rw [hc])
          | inr hc => exact Or.inr (by rw [hc]; rfl)
        · by_cases hr2 : 0xC2 ≤ b ∧ b ≤ 0xDF
          · match h1, hl1 with
            | [], _ =>
              rw [validUtf8_two_nil b h80 hr2] at hv
              cases hv
            | c :: h2, hl1 =>
              rw [validUtf8_two b c h2 h80 hr2, Bool.and_eq_true] at hv
              match m1 with
              | 0 =>
                refine ⟨0, by omega, Or.inr ?_⟩
                rw [List.take_succ_cons, List.take_zero, List.take_zero,
                  utf8Lossy_two_nil b h80 hr2]
                rfl
              | m2 + 1 =>
                obtain ⟨m', hm', hcase⟩ := ih h2 (by simp at hl1; omega) hv.2 m2
                refine ⟨m' + 2, by omega, ?_⟩
                rw [List.take_succ_cons, List.take_succ_cons, List.take_succ_cons,
                  List.take_succ_cons, utf8Lossy_two b c _ h80 hr2 hv.1]
                cases hcase with
                | inl hc => exact Or.inl (by rw [hc])
                | inr hc => exact Or.inr (by rw [hc]; rfl)
          · by_cases hr3 : 0xE0 ≤ b ∧ b ≤ 0xEF
            · match h1, hl1 with
              | [], _ =>
                rw [validUtf8_three_nil b h80 hr2 hr3] at hv
                cases hv
              | [c], _ =>
                rw [validUtf8_three_one b c h80 hr2 hr3] at hv
                cases hv
              | c :: d :: h3, hl1 =>
                rw [validUtf8_three b c d h3 h80 hr2 hr3, Bool.and_eq_true,
                  Bool.and_eq_true] at hv
                match m1 with
                | 0 =>
                  refine ⟨0, by omega, Or.inr ?_⟩
                  rw [List.take_succ_cons, List.take_zero, List.take_zero,
                    utf8Lossy_three_nil b h80 hr2 hr3]
                  rfl
                | 1 =>
                  refine ⟨0, by omega, Or.inr ?_⟩
                  rw [List.take_succ_cons, List.take_succ_cons, List.take_zero, List.take_zero,
                    utf8Lossy_three_one b c h80 hr2 hr3 hv.1]
                  rfl
                | m2 + 2 =>
                  obtain ⟨m', hm', hcase⟩ := ih h3 (by simp at hl1; omega) hv.2.2 m2
                  refine ⟨m' + 3, by omega, ?_⟩
                  rw [List.take_succ_cons, List.take_succ_cons, List.take_succ_cons,
                    List.take_succ_cons, List.take_succ_cons, List.take_succ_cons,
                    utf8Lossy_three b c d _ h80 hr2 hr3 hv.1 hv.2.1]
                  cases hcase with
                  | inl hc => exact Or.inl (by rw [hc])
                  | inr hc => exact Or.inr (by rw [hc]; rfl)
            · by_cases hr4 : 0xF0 ≤ b ∧ b ≤ 0xF4
              · match h1, hl1 with
                | [], _ =>
                  rw [validUtf8_four_nil b h80 hr2 hr3 hr4] at hv
                  cases hv
                | [c], _ =>
                  rw [validUtf8_four_one b c h80 hr2 hr3 hr4] at hv
                  cases hv
                | [c, d], _ =>
                  rw [validUtf8_four_two b c d h80 hr2 hr3 hr4] at hv
                  cases hv
                | c :: d :: e :: h4, hl1 =>
                  rw [validUtf8_four b c d e h4 h80 hr2 hr3 hr4, Bool.and_eq_true,
                    Bool.and_eq_true, Bool.and_eq_true] at hv
                  match m1 with
                  | 0 =>
                    refine ⟨0, by omega, Or.inr ?_⟩
                    rw [List.take_succ_cons, List.take_zero, List.take_zero,
                      utf8Lossy_four_nil b h80 hr2 hr3 hr4]
                    rfl
                  | 1 =>
                    refine ⟨0, by omega, Or.inr ?_⟩
                    rw [List.take_succ_cons, List.take_succ_cons, List.take_zero,
                      List.take_zero, utf8Lossy_four_one b c h80 hr2 hr3 hr4 hv.1]
                    rfl
                  | 2 =>
                    refine ⟨0, by omega, Or.inr ?_⟩
                    rw [List.take_succ_cons, List.take_succ_cons, List.take_succ_cons,
                      List.take_zero, List.take_zero,
                      utf8Lossy_four_two b c d h80 hr2 hr3 hr4 hv.1 hv.2.1]
                    rfl
                  | m2 + 3 =>
                    obtain ⟨m', hm', hcase⟩ := ih h4 (by simp at hl1; omega) hv.2.2.2 m2
                    refine ⟨m' + 4, by omega, ?_⟩
                    rw [List.take_succ_cons, List.take_succ_cons, List.take_succ_cons,
                      List.take_succ_cons, List.take_succ_cons, List.take_succ_cons,
                      List.take_succ_cons, List.take_succ_cons,
                      utf8Lossy_four b c d e _ h80 hr2 hr3 hr4 hv.1 hv.2.1 hv.2.2.1]
                    cases hcase with
                    | inl hc => exact Or.inl (by rw [hc])
                    | inr hc => exact Or.inr (by rw [hc]; rfl)
              · rw [validUtf8_bad b h1 h80 hr2 hr3 hr4] at hv
                cases hv

theorem utf8Lossy_take_of_valid (h : List Nat) (hv : validUtf8 h = true) (m : Nat) :
    ∃ m', m' ≤ m ∧
      (utf8Lossy (h.take m) = h.take m' ∨
       utf8Lossy (h.take m) = h.take m' ++ replChar) :=
  utf8Lossy_take_of_valid_aux h.length h (Nat.le_refl _) hv m

/-! ## Characterization of the CRLF CRLF search -/

theorem hasMatchAt_iff (l : List Nat) (i : Nat) :
    hasMatchAt l i = true ↔
      l[i]? = some 13 ∧ l[i + 1]? = some 10 ∧ l[i + 2]? = some 13 ∧ l[i + 3]? = some 10 := by
  have e0 : l[i]? = (l.drop i)[0]? := by rw [List.getElem?_drop]; simp
  have e1 : l[i + 1]? = (l.drop i)[1]? := by rw [List.getElem?_drop]
  have e2 : l[i + 2]? = (l.drop i)[2]? := by rw [List.getElem?_drop]
  have e3 : l[i + 3]? = (l.drop i)[3]? := by rw [List.getElem?_drop]
  rw [e0, e1, e2, e3]
  unfold hasMatchAt
  rcases hd : l.drop i with _ | ⟨a, _ | ⟨b, _ | ⟨c, _ | ⟨d, t⟩⟩⟩⟩ <;>
    simp [List.take, beq_iff_eq, and_assoc]

theorem hasMatchAt_le_length (l : List Nat) (i : Nat) (h : hasMatchAt l i = true) :
    i + 4 ≤ l.length := by
  obtain ⟨_, _, _, e3⟩ := (hasMatchAt_iff l i).mp h
  have h3 : i + 3 < l.length := by
    cases hlt : Nat.decLt (i + 3) l.length with
    | isTrue hp => exact hp
    | isFalse hp =>
      rw [List.getElem?_eq_none (by omega)] at e3
      cases e3
  omega

theorem findRange_eq_none (p : Nat → Bool) (n : Nat) :
    (List.range n).find? p = none ↔ ∀ i < n, p i = false := by
  rw [List.find?_eq_none]
  constructor
  · intro h i hi
    have := h i (List.mem_range.mpr hi)
    simpa using this
  · intro h x hx
    have := h x (List.mem_range.mp hx)
    simp [this]

theorem findRange_eq_some (p : Nat → Bool) (n : Nat) :
    ∀ j, ((List.range n).find? p = some j ↔
      (j < n ∧ p j = true ∧ ∀ i < j, p i = false)) := by
  induction n with
  | zero => intro j; simp
  | succ n ih =>
    intro j
    rw [List.range_succ, List.find?_append]
    cases hfn : (List.range n).find? p with
    | some j0 =>
      obtain ⟨hj0n, hp0, hmin0⟩ := (ih j0).mp hfn
      rw [show Option.or (some j0) (List.find? p [n]) = some j0 from rfl]
      constructor
      · intro hj
        have : j0 = j := by injection hj
        subst this
        exact ⟨by omega, hp0, hmin0⟩
      · rintro ⟨hjn, hpj, hminj⟩
        have : j = j0 := by
          by_contra hne
          rcases Nat.lt_or_ge j j0 with hlt | hge
          · rw [hmin0 j hlt] at hpj
            cases hpj
          · have hj0j : j0 < j := by omega
            rw [hminj j0 hj0j] at hp0
            cases hp0
        rw [this]
    | none =>
      have hnone := (findRange_eq_none p n).mp hfn
      rw [show Option.or none (List.find? p [n]) = List.find? p [n] from rfl]
      by_cases hpn : p n = true
      · rw [show List.find? p [n] = some n by simp [List.find?_cons, hpn]]
        constructor
        · intro hj
          have : n = j := by injection hj
          subst this
          exact ⟨by omega, hpn, fun i hi => hnone i hi⟩
        · rintro ⟨hjn, hpj, hminj⟩
          have : j = n := by
            by_contra hne
            have : j < n := by omega
            rw [hnone j this] at hpj
            cases hpj
          rw [this]
      · have hpnf : p n = false := by simpa using hpn
        rw [show List.find? p [n] = none by simp [List.find?_cons, hpnf]]
        constructor
        · intro hj
          cases hj
        · rintro ⟨hjn, hpj, hminj⟩
          have : j = n ∨ j < n := by omega
          cases this with
          | inl he => rw [he, hpnf] at hpj; cases hpj
          | inr hlt => rw [hnone j hlt] at hpj; cases hpj

theorem find4_eq_some_iff (l : List Nat) (j : Nat) :
    find4 l = some j ↔
      (j < l.length ∧ hasMatchAt l j = true ∧ ∀ i < j, hasMatchAt l i = false) :=
  findRange_eq_some _ _ j

theorem find4_eq_none_iff (l : List Nat) :
    find4 l = none ↔ ∀ i < l.length, hasMatchAt l i = false :=
  findRange_eq_none _ _

theorem find4_eq_none_of_all (l : List Nat) (h : ∀ i, hasMatchAt l i = false) :
    find4 l = none :=
  (find4_eq_none_iff l).mpr (fun i _ => h i)

theorem getElem?_append_lt {α : Type} (a b : List α) (i : Nat) (h : i < a.length) :
    (a ++ b)[i]? = a[i]? := by
  rw [List.getElem?_append]
  simp [h]

theorem getElem?_take_lt {α : Type} (l : List α) (m i : Nat) (h : i < m) :
    (l.take m)[i]? = l[i]? := by
  rw [List.getElem?_take]
  simp [h]

theorem find4_append (h x : List Nat) (j : Nat)
    (hj : find4 h = some j) (hje : j + 4 = h.length) :
    find4 (h ++ x) = some j := by
  obtain ⟨hjl, hm, hmin⟩ := (find4_eq_some_iff h j).mp hj
  apply (find4_eq_some_iff (h ++ x) j).mpr
  refine ⟨by simp; omega, ?_, ?_⟩
  · rw [hasMatchAt_iff] at hm ⊢
    obtain ⟨e0, e1, e2, e3⟩ := hm
    refine ⟨?_, ?_, ?_, ?_⟩
    · rw [getElem?_append_lt h x j (by omega)]; exact e0
    · rw [getElem?_append_lt h x (j + 1) (by omega)]; exact e1
    · rw [getElem?_append_lt h x (j + 2) (by omega)]; exact e2
    · rw [getElem?_append_lt h x (j + 3) (by omega)]; exact e3
  · intro i hij
    cases hbm : hasMatchAt (h ++ x) i with
    | false => rfl
    | true =>
      exfalso
      rw [hasMatchAt_iff] at hbm
      obtain ⟨e0, e1, e2, e3⟩ := hbm
      have hmx : hasMatchAt h i = true := by
        rw [hasMatchAt_iff]
        refine ⟨?_, ?_, ?_, ?_⟩
        · rw [← getElem?_append_lt h x i (by omega)]; exact e0
        · rw [← getElem?_append_lt h x (i + 1) (by omega)]; exact e1
        · rw [← getElem?_append_lt h x (i + 2) (by omega)]; exact e2
        · rw [← getElem?_append_lt h x (i + 3) (by omega)]; exact e3
      rw [hmin i hij] at hmx
      cases hmx

theorem no_match_append_nonCRLF (x r : List Nat)
    (hr : ∀ b ∈ r, ¬ b = 13 ∧ ¬ b = 10)
    (hx : ∀ i, hasMatchAt x i = false) (i : Nat) :
    hasMatchAt (x ++ r) i = false := by
  cases hbm : hasMatchAt (x ++ r) i with
  | false => rfl
  | true =>
    exfalso
    rw [hasMatchAt_iff] at hbm
    obtain ⟨e0, e1, e2, e3⟩ := hbm
    have hi3 : i + 3 < x.length := by
      by_contra hge
      push_neg at hge
      rw [List.getElem?_append] at e3
      rw [if_neg (by omega)] at e3
      exact (hr 10 (List.getElem?_mem e3)).2 rfl
    have hmx : hasMatchAt x i = true := by
      rw [hasMatchAt_iff]
      refine ⟨?_, ?_, ?_, ?_⟩
      · rw [← getElem?_append_lt x r i (by omega)]; exact e0
      · rw [← getElem?_append_lt x r (i + 1) (by omega)]; exact e1
      · rw [← getElem?_append_lt x r (i + 2) (by omega)]; exact e2
      · rw [← getElem?_append_lt x r (i + 3) (by omega)]; exact e3
    rw [hx i] at hmx
    cases hmx

theorem no_match_in_take (h : List Nat) (m' J : Nat)
    (hJ : ∀ i < J, hasMatchAt h i = false) (hle : m' ≤ J + 3) :
    ∀ i, hasMatchAt (h.take m') i = false := by
  intro i
  cases hbm : hasMatchAt (h.take m') i with
  | false => rfl
  | true =>
    exfalso
    rw [hasMatchAt_iff] at hbm
    obtain ⟨e0, e1, e2, e3⟩ := hbm
    have hi3 : i + 3 < m' := by
      by_contra hge
      push_neg at hge
      rw [List.getElem?_take] at e3
      rw [if_neg (by omega)] at e3
      cases e3
    have hmx : hasMatchAt h i = true := by
      rw [hasMatchAt_iff]
      refine ⟨?_, ?_, ?_, ?_⟩
      · rw [← getElem?_take_lt h m' i (by omega)]; exact e0
      · rw [← getElem?_take_lt h m' (i + 1) (by omega)]; exact e1
      · rw [← getElem?_take_lt h m' (i + 2) (by omega)]; exact e2
      · rw [← getElem?_take_lt h m' (i + 3) (by omega)]; exact e3
    have hiJ : i < J := by omega
    rw [hJ i hiJ] at hmx
    cases hmx

/-! ## C8: partial input and consumed count -/

/-- C8 counterexample.  The claim includes messages whose bytes are not valid
UTF-8.  The parser locates the head by searching the lossy-decoded text
(rtsp.rs line 24-27): a 0xFF byte in the head becomes the three-byte
replacement character, shifting the computed offset.  This 24-byte message is
complete (its head ends with CRLF CRLF at offset 20 = length-4 and it has no
body), yet parse reports it incomplete (ok none) instead of consuming 24. -/
theorem c8_lossy_head_counterexample :
    find4 (asciiBytes "GET / RTSP/1.0\r\nA: " ++ [255] ++ asciiBytes "\r\n\r\n") = some 20 ∧
    (asciiBytes "GET / RTSP/1.0\r\nA: " ++ [255] ++ asciiBytes "\r\n\r\n").length = 24 ∧
    reqParse (asciiBytes "GET / RTSP/1.0\r\nA: " ++ [255] ++ asciiBytes "\r\n\r\n") =
      .ok none := by
  refine ⟨by decide, by decide, by decide⟩

/-- C8 (amended): for every message h ++ b whose head h (through the first
CRLF CRLF, located by find4) is valid UTF-8, parses to a request line and
headers, and declares a Content-Length equal to the body length, the parser
consumes exactly the total byte length on the full message, and returns
incomplete (ok none) without consuming on every strict prefix — including when
the body b contains bytes that are not valid UTF-8.  When the head itself
contains invalid UTF-8 the lossy decode shifts offsets and this fails (see the
counterexample). -/
theorem c8_partial_input (h b : List Nat) (q : ReqHead)
    (hv : validUtf8 h = true)
    (hfind : find4 h = some (h.length - 4))
    (hhead : parseReqHead (h.take (h.length - 4)) = .ok q)
    (hcl : contentLenOf q.headers = b.length) :
    reqParse (h ++ b) =
      .ok (some (⟨q.method, q.path, q.version, q.headers, b⟩, h.length + b.length)) ∧
    ∀ m < h.length + b.length, reqParse ((h ++ b).take m) = .ok none := by
  have hm0 : hasMatchAt h (h.length - 4) = true :=
    ((find4_eq_some_iff h _).mp hfind).2.1
  have hminh : ∀ i < h.length - 4, hasMatchAt h i = false :=
    ((find4_eq_some_iff h _).mp hfind).2.2
  have hlen4 : 4 ≤ h.length := by
    have := hasMatchAt_le_length h _ hm0
    omega
  have htake_head : ∀ x : List Nat, (h ++ x).take (h.length - 4) = h.take (h.length - 4) := by
    intro x
    rw [List.take_append_eq_append_take, show h.length - 4 - h.length = 0 by omega]
    simp
  constructor
  · have hf : find4 (h ++ utf8Lossy b) = some (h.length - 4) :=
      find4_append h (utf8Lossy b) (h.length - 4) hfind (by omega)
    simp only [reqParse, utf8Lossy_append_of_valid h hv b, hf, htake_head, hhead, hcl]
    rw [if_neg (by simp; omega)]
    rw [show h.length - 4 + 4 = h.length by omega]
    rw [show (h ++ b).drop h.length = b by simp]
    rw [List.take_length]
  · intro m hm
    by_cases hmlt : m < h.length
    · have htake : (h ++ b).take m = h.take m := by
        rw [List.take_append_eq_append_take, show m - h.length = 0 by omega]
        simp
      rw [htake]
      obtain ⟨m', hm'le, hcase⟩ := utf8Lossy_take_of_valid h hv m
      have hnone : find4 (utf8Lossy (h.take m)) = none := by
        apply find4_eq_none_of_all
        cases hcase with
        | inl hc =>
          rw [hc]
          exact no_match_in_take h m' (h.length - 4) hminh (by omega)
        | inr hc =>
          rw [hc]
          exact no_match_append_nonCRLF _ _ (by decide)
            (no_match_in_take h m' (h.length - 4) hminh (by omega))
      simp only [reqParse, hnone]
    · push_neg at hmlt
      have htake : (h ++ b).take m = h ++ b.take (m - h.length) := by
        rw [List.take_append_eq_append_take]
        rw [List.take_of_length_le hmlt]
      rw [htake]
      have hf : find4 (h ++ utf8Lossy (b.take (m - h.length))) = some (h.length - 4) :=
        find4_append h _ (h.length - 4) hfind (by omega)
      simp only [reqParse, utf8Lossy_append_of_valid h hv, hf, htake_head, hhead, hcl]
      rw [if_pos (by simp [List.length_take]; omega)]

/-- C8 witness: an ASCII head with Content-Length 2 and a body containing a
byte that is not valid UTF-8. -/
theorem c8_partial_input_witness :
    (validUtf8 (asciiBytes "DESCRIBE / RTSP/1.0\r\nContent-Length: 2\r\n\r\n") = true ∧
     find4 (asciiBytes "DESCRIBE / RTSP/1.0\r\nContent-Length: 2\r\n\r\n") = some 38 ∧
     contentLenOf [(asciiBytes "Content-Length", asciiBytes "2")] = 2) ∧
    reqParse (asciiBytes "DESCRIBE / RTSP/1.0\r\nContent-Length: 2\r\n\r\n" ++ [0, 255]) =
      .ok (some (⟨asciiBytes "DESCRIBE", asciiBytes "/", asciiBytes "RTSP/1.0",
        [(asciiBytes "Content-Length", asciiBytes "2")], [0, 255]⟩, 44)) ∧
    ∀ m < 44,
      reqParse ((asciiBytes "DESCRIBE / RTSP/1.0\r\nContent-Length: 2\r\n\r\n" ++ [0, 255]).take m) =
        .ok none := by
  have hmain := c8_partial_input
    (asciiBytes "DESCRIBE / RTSP/1.0\r\nContent-Length: 2\r\n\r\n") [0, 255]
    ⟨asciiBytes "DESCRIBE", asciiBytes "/", asciiBytes "RTSP/1.0",
      [(asciiBytes "Content-Length", asciiBytes "2")]⟩
    (by decide) (by decide) (by decide) (by decide)
  refine ⟨⟨by decide, by decide, by decide⟩, ?_, ?_⟩
  · exact hmain.1
  · intro m hmlt
    exact hmain.2 m hmlt
